import Mathlib

/-!
Shallow embedding of the AniTracker MCP expense server (`main.py`).

The Postgres-backed state is modelled as an explicit `DB` record of table
contents; each tool is a Lean function threading that state.  Numeric
amounts (Python floats fed into `NUMERIC` columns) are modelled as exact
rationals; Python's `round(x, 2)` (round-half-to-even on the third decimal)
is modelled by `round2`.  Exceptions become `Except RecErr`; the
`async with conn.transaction()` block is modelled by discarding the
intermediate state whenever the body returns an error (rollback).
-/

deriving instance DecidableEq for Except

namespace AniTracker

/-- Python's `str.lower()` (ASCII range, which covers every string this
program compares case-insensitively). -/
def lowerStr (s : String) : String :=
  ⟨s.data.map Char.toLower⟩

/-- Python's `str.strip()`: drop leading and trailing whitespace. -/
def stripStr (s : String) : String :=
  ⟨((s.data.dropWhile Char.isWhitespace).reverse.dropWhile
      Char.isWhitespace).reverse⟩

/-- A calendar date, as produced by `datetime.date`. -/
structure Date where
  year : Nat
  month : Nat
  day : Nat
deriving DecidableEq, Repr

def isLeapYear (y : Nat) : Bool :=
  (y % 4 == 0 && y % 100 != 0) || y % 400 == 0

def daysInMonth (y m : Nat) : Nat :=
  if m = 2 then (if isLeapYear y then 29 else 28)
  else if m = 4 ∨ m = 6 ∨ m = 9 ∨ m = 11 then 30
  else 31

/-- `today + timedelta(days=1)` on calendar dates. -/
def nextDay (d : Date) : Date :=
  if d.day < daysInMonth d.year d.month then ⟨d.year, d.month, d.day + 1⟩
  else if d.month < 12 then ⟨d.year, d.month + 1, 1⟩
  else ⟨d.year + 1, 1, 1⟩

/-- `today - timedelta(days=1)` on calendar dates. -/
def prevDay (d : Date) : Date :=
  if 1 < d.day then ⟨d.year, d.month, d.day - 1⟩
  else if 1 < d.month then ⟨d.year, d.month - 1, daysInMonth d.year (d.month - 1)⟩
  else ⟨d.year - 1, 12, 31⟩

/-- Split a character list into the fields delimited by `sep`. -/
def splitFields (sep : Char) : List Char → List (List Char)
  | [] => [[]]
  | c :: rest =>
    if c = sep then [] :: splitFields sep rest
    else
      match splitFields sep rest with
      | f :: fs => (c :: f) :: fs
      | [] => [[c]]

def digitsToNat (cs : List Char) : Nat :=
  cs.foldl (fun n c => 10 * n + (c.toNat - 48)) 0

/-- CPython `_strptime`'s pattern for `%Y`: exactly four digits
(`\d\d\d\d`). -/
def yearField (cs : List Char) : Bool :=
  cs.length = 4 && cs.all Char.isDigit

/-- CPython `_strptime`'s pattern for `%m`: `1[0-2]|0[1-9]|[1-9]`. -/
def monthField : List Char → Bool
  | [c] => '1' ≤ c && c ≤ '9'
  | [c1, c2] =>
    (c1 = '1' && '0' ≤ c2 && c2 ≤ '2') ||
    (c1 = '0' && '1' ≤ c2 && c2 ≤ '9')
  | _ => false

/-- CPython `_strptime`'s pattern for `%d`:
`3[01]|[12]\d|0[1-9]|[1-9]| [1-9]` — note the space-padded single-digit
form in the last alternative. -/
def dayField : List Char → Bool
  | [c] => '1' ≤ c && c ≤ '9'
  | [c1, c2] =>
    (c1 = '3' && (c2 = '0' || c2 = '1')) ||
    ((c1 = '1' || c1 = '2') && c2.isDigit) ||
    (c1 = '0' && '1' ≤ c2 && c2 ≤ '9') ||
    (c1 = ' ' && '1' ≤ c2 && c2 ≤ '9')
  | _ => false

/-- The numeric value of a (possibly space-padded) field. -/
def fieldValue (cs : List Char) : Nat :=
  digitsToNat (cs.dropWhile (fun c => c = ' '))

/-- `datetime.strptime(s, "%Y-%m-%d").date()`: the year, month and day
fields must match `_strptime`'s regex fragments for `%Y`, `%m` and `%d`
(fields delimited by the literal dashes, nothing left over), and the
resulting values must form a valid `datetime.date` (year ≥ 1, day within
the month); `none` models the `ValueError` raised otherwise. -/
def parseDate (s : String) : Option Date :=
  match splitFields '-' s.data with
  | [ys, ms, ds] =>
    if yearField ys && monthField ms && dayField ds then
      let y := fieldValue ys
      let m := fieldValue ms
      let d := fieldValue ds
      if 1 ≤ y && 1 ≤ m && m ≤ 12 && 1 ≤ d && d ≤ daysInMonth y m then
        some ⟨y, m, d⟩
      else
        none
    else
      none
  | _ => none

/-- The errors `add_split_expense` can surface:
`ValueError`s from category lookup / split validation, `KeyError` from
`participant_ids[user]`, the `UNIQUE(expense_id, user_id)` constraint, the
`CHECK (amount > 0)` constraint, `ZeroDivisionError` from an empty
participant list under `equal`, and the strptime `ValueError`. -/
inductive RecErr where
  | invalidDate
  | categoryNotFound
  | missingSplitDetail
  | invalidSplitPolicy
  | keyError
  | uniqueViolation
  | checkViolation
  | zeroDivision
deriving DecidableEq, Repr

/-- `normalize_date`, parametrised by the current day (`date.today()`). -/
def normalize_date (today : Date) (d : Option String) : Except RecErr Date :=
  match d with
  | none => .ok today
  | some s =>
    if s = "" then .ok today
    else
      let t := lowerStr (stripStr s)
      if t = "today" ∨ t = "now" then .ok today
      else if t = "yesterday" then .ok (prevDay today)
      else if t = "tomorrow" then .ok (nextDay today)
      else
        match parseDate t with
        | some dt => .ok dt
        | none => .error .invalidDate

/-- Row of `expenses`. -/
structure ExpenseRow where
  id : Nat
  amount : ℚ
  categoryId : Nat
  description : Option String
  expenseDate : Date
  paidBy : Nat
  splitType : String
deriving DecidableEq, Repr

/-- Database state: table contents plus the `SERIAL` counters that hand
out the next `users.id` / `expenses.id`. A split row is
`(expense_id, user_id, amount)`, a balance row `((from_user, to_user), amount)`. -/
structure DB where
  users : List (Nat × String)
  nextUserId : Nat
  categories : List (Nat × String)
  expenses : List ExpenseRow
  nextExpenseId : Nat
  splits : List (Nat × Nat × ℚ)
  balances : List ((Nat × Nat) × ℚ)
deriving DecidableEq, Repr

/-- `SELECT id FROM users WHERE name=$1` (first matching row). -/
def findUser (n : String) : List (Nat × String) → Option (Nat × String)
  | [] => none
  | r :: rest => if r.2 = n then some r else findUser n rest

/-- `get_user_id`: trim, look up by exact name, insert a fresh row if
absent; returns the id and the (possibly grown) state. -/
def get_user_id (name : String) (db : DB) : Nat × DB :=
  let n := stripStr name
  match findUser n db.users with
  | some r => (r.1, db)
  | none =>
    (db.nextUserId,
     { db with users := db.users ++ [(db.nextUserId, n)],
               nextUserId := db.nextUserId + 1 })

def isPrefixList : List Char → List Char → Bool
  | [], _ => true
  | _ :: _, [] => false
  | a :: as, b :: bs => a = b && isPrefixList as bs

/-- Does `pat` occur as a contiguous run inside `hay`? -/
def containsSub (hay pat : List Char) : Bool :=
  match hay with
  | [] => pat.isEmpty
  | _ :: rest => isPrefixList pat hay || containsSub rest pat

/-- `lower(hay) LIKE '%' || lower(pat) || '%'` for wildcard-free `pat`:
substring containment. -/
def likeContains (hay pat : String) : Bool :=
  containsSub hay.data pat.data

/-- `SELECT id FROM categories WHERE lower(name) = lower($1)`. -/
def findCatExact (n : String) : List (Nat × String) → Option (Nat × String)
  | [] => none
  | r :: rest =>
    if lowerStr r.2 = lowerStr n then some r else findCatExact n rest

/-- `SELECT id FROM categories WHERE lower(name) LIKE lower('%'||$1||'%') LIMIT 1`. -/
def findCatFuzzy (n : String) : List (Nat × String) → Option (Nat × String)
  | [] => none
  | r :: rest =>
    if likeContains (lowerStr r.2) (lowerStr n) then some r else findCatFuzzy n rest

/-- `get_category_id`: trim, case-insensitive exact match, then
case-insensitive substring match (`LIKE '%name%' LIMIT 1`); `none` models
the `ValueError` ("Invalid category"). Read-only. -/
def get_category_id (name : String) (db : DB) : Option Nat :=
  let n := stripStr name
  match findCatExact n db.categories with
  | some r => some r.1
  | none =>
    match findCatFuzzy n db.categories with
    | some r => some r.1
    | none => none

/-- Python-dict insertion: update the value in place if the key exists,
else append. Models `d[k] = v` and dict-comprehension key collapse. -/
def dinsert {α : Type} (k : String) (v : α) : List (String × α) → List (String × α)
  | [] => [(k, v)]
  | e :: rest => if e.1 = k then (k, v) :: rest else e :: dinsert k v rest

/-- Python-dict lookup `m[k]`, `none` modelling `KeyError`. -/
def dlookup {α : Type} (k : String) : List (String × α) → Option α
  | [] => none
  | e :: rest => if e.1 = k then some e.2 else dlookup k rest

/-- The loop `for p in participants: participant_ids[p] = get_user_id(conn, p)`:
keys are the raw (untrimmed) names. -/
def resolveParticipants (ps : List String) (db : DB) :
    List (String × Nat) × DB :=
  ps.foldl
    (fun acc p =>
      let r := get_user_id p acc.2
      (dinsert p r.1 acc.1, r.2))
    ([], db)

/-- Round-half-to-even to an integer, as Python's `round` does. -/
def roundHalfEven (q : ℚ) : ℤ :=
  let f := ⌊q⌋
  let r := q - f
  if r < 1 / 2 then f
  else if r > 1 / 2 then f + 1
  else if f % 2 = 0 then f else f + 1

/-- Python's `round(x, 2)` on exact decimal values. -/
def round2 (q : ℚ) : ℚ :=
  (roundHalfEven (100 * q) : ℚ) / 100

/-- The dict comprehension `{p: share for p in participants}`. -/
def equalMap (ps : List String) (share : ℚ) : List (String × ℚ) :=
  ps.foldl (fun m p => dinsert p share m) []

/-- The SPLIT LOGIC block of `add_split_expense`: computes `split_map`
from the policy, or the `ValueError` / `ZeroDivisionError` it raises.
`splits = some []` is falsy in Python, hence also "splits required". -/
def computeSplitMap (splitType : String) (amount : ℚ) (participants : List String)
    (splits : Option (List (String × ℚ))) : Except RecErr (List (String × ℚ)) :=
  if splitType = "equal" then
    if participants.length = 0 then .error .zeroDivision
    else .ok (equalMap participants (round2 (amount / participants.length)))
  else if splitType = "unequal" then
    match splits with
    | none => .error .missingSplitDetail
    | some l => if l = [] then .error .missingSplitDetail else .ok l
  else if splitType = "percent" then
    match splits with
    | none => .error .missingSplitDetail
    | some l =>
      if l = [] then .error .missingSplitDetail
      else .ok (l.map (fun up => (up.1, round2 (amount * up.2 / 100))))
  else .error .invalidSplitPolicy

/-- A balance-table lookup by the `(from_user, to_user)` primary key. -/
def lookupBal (k : Nat × Nat) : List ((Nat × Nat) × ℚ) → Option ℚ
  | [] => none
  | e :: rest => if e.1 = k then some e.2 else lookupBal k rest

/-- `INSERT INTO balances ... ON CONFLICT (from_user,to_user) DO UPDATE
SET amount = balances.amount + EXCLUDED.amount`. -/
def upsertBalance (k : Nat × Nat) (amt : ℚ) :
    List ((Nat × Nat) × ℚ) → List ((Nat × Nat) × ℚ)
  | [] => [(k, amt)]
  | e :: rest =>
    if e.1 = k then (e.1, e.2 + amt) :: rest else e :: upsertBalance k amt rest

/-- Does a row with key `(expense_id, user_id)` already exist? (The
`UNIQUE(expense_id, user_id)` table constraint.) -/
def hasSplitRow (eid uid : Nat) : List (Nat × Nat × ℚ) → Bool
  | [] => false
  | r :: rest => if r.1 = eid ∧ r.2.1 = uid then true else hasSplitRow eid uid rest

/-- The `for user, amt in split_map.items()` loop: resolve the user id
from `participant_ids` (`KeyError` if absent), insert the split row
(`UNIQUE(expense_id, user_id)` violation if the pair already exists), and
upsert the balance when the user is not the payer. -/
def insertSplits (eid payerId : Nat) (pids : List (String × Nat)) :
    List (String × ℚ) → DB → Except RecErr DB
  | [], db => .ok db
  | (user, amt) :: rest, db =>
    match dlookup user pids with
    | none => .error .keyError
    | some uid =>
      if hasSplitRow eid uid db.splits then
        .error .uniqueViolation
      else
        let db1 := { db with splits := db.splits ++ [(eid, uid, amt)] }
        let db2 :=
          if uid ≠ payerId then
            { db1 with balances := upsertBalance (uid, payerId) amt db1.balances }
          else db1
        insertSplits eid payerId pids rest db2

/-- Arguments of `add_split_expense`. -/
structure Args where
  amount : ℚ
  category : String
  paidBy : String
  participants : List String
  splitType : String
  splits : Option (List (String × ℚ)) := none
  description : Option String := none
  expenseDate : Option String := none

/-- The body of `add_split_expense`, from `normalize_date` through the
split/balance loop, returning the post-transaction state and the new
expense id. The `CHECK (amount > 0)` constraint fires at the expense
INSERT. (The `isinstance(expense_date, str)` re-parse is unreachable:
`normalize_date` already returned a date object.) -/
def add_split_expense (today : Date) (a : Args) (db : DB) :
    Except RecErr (DB × Nat) :=
  match normalize_date today a.expenseDate with
  | .error e => .error e
  | .ok dt =>
    let pr := get_user_id a.paidBy db
    let rp := resolveParticipants a.participants pr.2
    match get_category_id a.category rp.2 with
    | none => .error .categoryNotFound
    | some catId =>
      match computeSplitMap a.splitType a.amount a.participants a.splits with
      | .error e => .error e
      | .ok sm =>
        if a.amount ≤ 0 then .error .checkViolation
        else
          let eid := rp.2.nextExpenseId
          let db3 :=
            { rp.2 with
              expenses := rp.2.expenses ++
                [⟨eid, a.amount, catId, a.description, dt, pr.1, a.splitType⟩],
              nextExpenseId := eid + 1 }
          (insertSplits eid pr.1 rp.1 sm db3).map (fun db4 => (db4, eid))

/-- The whole tool call: `async with conn.transaction()` rolls every
mutation back when the body raises, so the pre-call state is returned
alongside the error. -/
def run_add_split_expense (today : Date) (a : Args) (db : DB) :
    DB × Except RecErr Nat :=
  match add_split_expense today a db with
  | .ok r => (r.1, .ok r.2)
  | .error e => (db, .error e)

def findUserById (uid : Nat) : List (Nat × String) → Option (Nat × String)
  | [] => none
  | r :: rest => if r.1 = uid then some r else findUserById uid rest

/-- `JOIN users ON users.id = ...`: the name belonging to a user id. -/
def userName (db : DB) (uid : Nat) : String :=
  ((findUserById uid db.users).map (fun r => r.2)).getD ""

def insertByAmountDesc (x : String × String × ℚ) :
    List (String × String × ℚ) → List (String × String × ℚ)
  | [] => [x]
  | y :: ys => if y.2.2 ≤ x.2.2 then x :: y :: ys else y :: insertByAmountDesc x ys

/-- `get_balances`: join user names onto the balance table and order by
amount descending. -/
def get_balances (db : DB) : List (String × String × ℚ) :=
  (db.balances.map (fun b => (userName db b.1.1, userName db b.1.2, b.2))).foldr
    insertByAmountDesc []

def insertByName (x : Nat × String) : List (Nat × String) → List (Nat × String)
  | [] => [x]
  | y :: ys => if x.2 ≤ y.2 then x :: y :: ys else y :: insertByName x ys

/-- `list_users`: id/name pairs ordered by name. -/
def list_users (db : DB) : List (Nat × String) :=
  db.users.foldr insertByName []

/-- Sum of the split amounts persisted for expense `eid`. -/
def splitSum (db : DB) (eid : Nat) : ℚ :=
  ((db.splits.filter (fun r => r.1 == eid)).map (fun r => r.2.2)).sum

/-! Concrete fixtures for the scenario theorems: a freshly bootstrapped
database seeded with the single category `Food`, and the tool-call
arguments of the spec scenarios. -/

def st0 : DB := ⟨[], 1, [(1, "Food")], [], 1, [], []⟩

def d0 : Date := ⟨2026, 1, 29⟩

/-- `record_expense(amount=30, category="Food", payer="Alice",
participants=["Alice","Bob","Carol"], policy="equal")`. -/
def argsEqual3 : Args :=
  { amount := 30, category := "Food", paidBy := "Alice",
    participants := ["Alice", "Bob", "Carol"], splitType := "equal" }

/-- Unknown category. -/
def argsZzz : Args :=
  { amount := 30, category := "Zzz", paidBy := "Dave",
    participants := ["Erin"], splitType := "equal" }

/-- Unknown category, distinct fixture for the user-persistence claim. -/
def argsZzz2 : Args :=
  { amount := 12, category := "Zzz", paidBy := "Frank",
    participants := ["Gina"], splitType := "equal" }

/-- Unequal split whose explicit shares do not sum to the amount. -/
def argsUnequalBad : Args :=
  { amount := 30, category := "Food", paidBy := "Alice",
    participants := ["Alice", "Bob"], splitType := "unequal",
    splits := some [("Alice", 1), ("Bob", 2)] }

/-- Unequal split leaving participant Carol without an explicit share. -/
def argsNoCarol : Args :=
  { amount := 30, category := "Food", paidBy := "Alice",
    participants := ["Alice", "Bob", "Carol"], splitType := "unequal",
    splits := some [("Bob", 30)] }

/-- Unequal split omitting participant Carol, fixture for the
splits-keyed claim. -/
def argsNoCarol2 : Args :=
  { amount := 25, category := "Food", paidBy := "Alice",
    participants := ["Alice", "Bob", "Carol"], splitType := "unequal",
    splits := some [("Bob", 25)] }

/-- Unequal split whose key `Zed` is not a participant. -/
def argsZedKey : Args :=
  { amount := 30, category := "Food", paidBy := "Alice",
    participants := ["Alice", "Bob"], splitType := "unequal",
    splits := some [("Alice", 10), ("Zed", 20)] }

/-- The participant name `Bob` appears twice. -/
def argsDupBob : Args :=
  { amount := 30, category := "Food", paidBy := "Alice",
    participants := ["Alice", "Bob", "Bob"], splitType := "equal" }

/-- Two participant strings that trim to the same user name. -/
def argsTrimBob : Args :=
  { amount := 30, category := "Food", paidBy := "Alice",
    participants := ["Bob", " Bob"], splitType := "equal" }

/-- First expense of the accumulation scenario: A owes B 10. -/
def argsOwe10 : Args :=
  { amount := 20, category := "Food", paidBy := "B",
    participants := ["A", "B"], splitType := "equal" }

/-- Second expense of the accumulation scenario: A owes B 5 more. -/
def argsOwe5 : Args :=
  { amount := 10, category := "Food", paidBy := "B",
    participants := ["A", "B"], splitType := "equal" }

/-- The split rows the loop will insert for expense `eid`: each
`split_map` entry resolved through `participant_ids`; `none` when some
key is missing (`KeyError`). -/
def resolveRows (eid : Nat) (pids : List (String × Nat)) :
    List (String × ℚ) → Option (List (Nat × Nat × ℚ))
  | [] => some []
  | (u, amt) :: rest =>
    match dlookup u pids, resolveRows eid pids rest with
    | some uid, some rs => some ((eid, uid, amt) :: rs)
    | _, _ => none

/-- The cumulative effect of the loop's balance upserts: one
insert-or-add per split row whose user is not the payer. -/
def applyBalances (payerId : Nat) (rows : List (Nat × Nat × ℚ))
    (bs : List ((Nat × Nat) × ℚ)) : List ((Nat × Nat) × ℚ) :=
  rows.foldl
    (fun bs r =>
      if r.2.1 ≠ payerId then upsertBalance (r.2.1, payerId) r.2.2 bs else bs)
    bs

/-- The balance keys the loop touches: `(uid, payerId)` for every
split-map key resolving to a non-payer uid. -/
def touchedPair (sm : List (String × ℚ)) (pids : List (String × Nat))
    (payerId : Nat) (k : Nat × Nat) : Prop :=
  ∃ u ∈ sm, dlookup u.1 pids = some k.1 ∧ k.1 ≠ payerId ∧ k.2 = payerId

/-! ## Basic lemmas about the run wrapper and state preservation -/

theorem run_error_elim (today : Date) (a : Args) (db db' : DB) (e : RecErr)
    (h : run_add_split_expense today a db = (db', .error e)) :
    db' = db ∧ add_split_expense today a db = .error e := by
  unfold run_add_split_expense at h
  cases hr : add_split_expense today a db with
  | ok r => rw [hr] at h; simp at h
  | error e' =>
    rw [hr] at h
    simp at h
    obtain ⟨h1, h2⟩ := h
    exact ⟨h1.symm, congrArg Except.error h2⟩

theorem run_ok_elim (today : Date) (a : Args) (db db' : DB) (eid : Nat)
    (h : run_add_split_expense today a db = (db', .ok eid)) :
    add_split_expense today a db = .ok (db', eid) := by
  unfold run_add_split_expense at h
  cases hr : add_split_expense today a db with
  | ok r =>
    rw [hr] at h
    simp at h
    obtain ⟨h1, h2⟩ := h
    simp [← h1, ← h2]
  | error e' => rw [hr] at h; simp at h

/-- `get_user_id` only touches the users table and its id counter. -/
theorem get_user_id_tables (name : String) (db : DB) :
    (get_user_id name db).2.categories = db.categories ∧
    (get_user_id name db).2.expenses = db.expenses ∧
    (get_user_id name db).2.nextExpenseId = db.nextExpenseId ∧
    (get_user_id name db).2.splits = db.splits ∧
    (get_user_id name db).2.balances = db.balances := by
  cases hf : findUser (stripStr name) db.users <;> simp [get_user_id, hf]

/-- `resolveParticipants` only touches the users table and its id counter. -/
theorem resolveParticipants_tables (ps : List String) (db : DB) :
    (resolveParticipants ps db).2.categories = db.categories ∧
    (resolveParticipants ps db).2.expenses = db.expenses ∧
    (resolveParticipants ps db).2.nextExpenseId = db.nextExpenseId ∧
    (resolveParticipants ps db).2.splits = db.splits ∧
    (resolveParticipants ps db).2.balances = db.balances := by
  suffices h : ∀ (ps : List String) (acc : List (String × Nat) × DB),
      (ps.foldl
        (fun acc p =>
          let r := get_user_id p acc.2
          (dinsert p r.1 acc.1, r.2)) acc).2.categories = acc.2.categories ∧
      (ps.foldl
        (fun acc p =>
          let r := get_user_id p acc.2
          (dinsert p r.1 acc.1, r.2)) acc).2.expenses = acc.2.expenses ∧
      (ps.foldl
        (fun acc p =>
          let r := get_user_id p acc.2
          (dinsert p r.1 acc.1, r.2)) acc).2.nextExpenseId = acc.2.nextExpenseId ∧
      (ps.foldl
        (fun acc p =>
          let r := get_user_id p acc.2
          (dinsert p r.1 acc.1, r.2)) acc).2.splits = acc.2.splits ∧
      (ps.foldl
        (fun acc p =>
          let r := get_user_id p acc.2
          (dinsert p r.1 acc.1, r.2)) acc).2.balances = acc.2.balances by
    exact h ps ([], db)
  intro ps
  induction ps with
  | nil => intro acc; simp
  | cons p rest ih =>
    intro acc
    obtain ⟨h1, h2, h3, h4, h5⟩ := ih (dinsert p (get_user_id p acc.2).1 acc.1,
      (get_user_id p acc.2).2)
    obtain ⟨g1, g2, g3, g4, g5⟩ := get_user_id_tables p acc.2
    simp only [List.foldl_cons]
    exact ⟨h1.trans g1, h2.trans g2, h3.trans g3, h4.trans g4, h5.trans g5⟩

theorem findUser_append (n : String) (l1 l2 : List (Nat × String)) :
    findUser n (l1 ++ l2) =
      match findUser n l1 with
      | some r => some r
      | none => findUser n l2 := by
  induction l1 with
  | nil => simp [findUser]
  | cons r rest ih =>
    by_cases hr : r.2 = n <;> simp [findUser, hr, ih]

/-! ## C9: idempotence of user identity resolution -/

/-- C9: resolving the same user name twice returns the same id both
times, the second resolution leaves the state untouched, and the first
resolution creates at most one row (none when the name already exists,
exactly the one fresh row otherwise). -/
theorem user_resolution_idempotent (name : String) (db : DB) :
    (get_user_id name (get_user_id name db).2).1 = (get_user_id name db).1 ∧
    (get_user_id name (get_user_id name db).2).2 = (get_user_id name db).2 ∧
    ((get_user_id name db).2.users = db.users ∨
      (get_user_id name db).2.users = db.users ++ [(db.nextUserId, stripStr name)]) := by
  cases hf : findUser (stripStr name) db.users with
  | some r => simp [get_user_id, hf]
  | none =>
    have hsecond :
        findUser (stripStr name) (db.users ++ [(db.nextUserId, stripStr name)]) =
          some (db.nextUserId, stripStr name) := by
      rw [findUser_append, hf]
      simp [findUser]
    simp [get_user_id, hf, hsecond]

/-! ## C6: date normalization -/

/-- C6: `normalize_date` maps absent/empty input to today, the tokens
today/now/yesterday/tomorrow (after trimming and lowercasing) to today,
today − 1 and today + 1 respectively, and any other string to its
`YYYY-MM-DD` parse when one exists and to `InvalidDate` otherwise; in
particular `tomorrow` evaluated on 2026-01-29 yields 2026-01-30, a
space-padded day parses as strptime does, and a three-digit or zero year
fails. -/
theorem normalize_date_spec :
    (∀ today : Date,
      normalize_date today none = .ok today ∧
      normalize_date today (some "") = .ok today) ∧
    (∀ (today : Date) (s : String), s ≠ "" →
      ((lowerStr (stripStr s) = "today" ∨ lowerStr (stripStr s) = "now") →
        normalize_date today (some s) = .ok today) ∧
      (lowerStr (stripStr s) = "yesterday" →
        normalize_date today (some s) = .ok (prevDay today)) ∧
      (lowerStr (stripStr s) = "tomorrow" →
        normalize_date today (some s) = .ok (nextDay today)) ∧
      (lowerStr (stripStr s) ≠ "today" → lowerStr (stripStr s) ≠ "now" →
        lowerStr (stripStr s) ≠ "yesterday" → lowerStr (stripStr s) ≠ "tomorrow" →
        ((∃ dt, parseDate (lowerStr (stripStr s)) = some dt ∧
            normalize_date today (some s) = .ok dt) ∨
          (parseDate (lowerStr (stripStr s)) = none ∧
            normalize_date today (some s) = .error .invalidDate)))) ∧
    normalize_date d0 (some "tomorrow") = .ok ⟨2026, 1, 30⟩ ∧
    normalize_date d0 (some "2026-01- 5") = .ok ⟨2026, 1, 5⟩ ∧
    normalize_date d0 (some "999-01-01") = .error .invalidDate ∧
    normalize_date d0 (some "0000-01-01") = .error .invalidDate ∧
    normalize_date d0 (some "2026-02-07") = .ok ⟨2026, 2, 7⟩ := by
  refine ⟨fun today => ⟨rfl, by simp [normalize_date]⟩, ?_, by decide,
    by decide, by decide, by decide, by decide⟩
  intro today s hs
  refine ⟨?_, ?_, ?_, ?_⟩
  · intro ht
    simp [normalize_date, hs, ht]
  · intro ht
    rcases eq_or_ne (lowerStr (stripStr s)) "today" with h1 | h1
    · rw [h1] at ht; exact absurd ht (by decide)
    rcases eq_or_ne (lowerStr (stripStr s)) "now" with h2 | h2
    · rw [h2] at ht; exact absurd ht (by decide)
    simp [normalize_date, hs, h1, h2, ht]
  · intro ht
    rcases eq_or_ne (lowerStr (stripStr s)) "today" with h1 | h1
    · rw [h1] at ht; exact absurd ht (by decide)
    rcases eq_or_ne (lowerStr (stripStr s)) "now" with h2 | h2
    · rw [h2] at ht; exact absurd ht (by decide)
    rcases eq_or_ne (lowerStr (stripStr s)) "yesterday" with h3 | h3
    · rw [h3] at ht; exact absurd ht (by decide)
    simp [normalize_date, hs, h1, h2, h3, ht]
  · intro h1 h2 h3 h4
    cases hp : parseDate (lowerStr (stripStr s)) with
    | some dt =>
      exact Or.inl ⟨dt, rfl, by simp [normalize_date, hs, h1, h2, h3, h4, hp]⟩
    | none =>
      exact Or.inr ⟨rfl, by simp [normalize_date, hs, h1, h2, h3, h4, hp]⟩

/-- Instantiation of the `now` token branch of `normalize_date_spec` at a
concrete date and input. -/
theorem normalize_date_spec_witness :
    (" NOW" : String) ≠ "" ∧
    normalize_date ⟨2025, 3, 1⟩ (some " NOW") = .ok ⟨2025, 3, 1⟩ :=
  ⟨by decide,
   (normalize_date_spec.2.1 ⟨2025, 3, 1⟩ " NOW" (by decide)).1 (Or.inr (by decide))⟩

/-! ## C1: CategoryNotFound rolls the whole transaction back -/

/-- C1: when `record_expense` fails with `CategoryNotFound`, no Expense,
ExpenseSplit or Balance row is persisted and `list_balances` afterwards is
unchanged (the transaction rolls back to the pre-call state). -/
theorem categoryNotFound_preserves_state (today : Date) (a : Args) (db db' : DB)
    (h : run_add_split_expense today a db = (db', .error .categoryNotFound)) :
    db'.expenses = db.expenses ∧ db'.splits = db.splits ∧
    db'.balances = db.balances ∧ get_balances db' = get_balances db := by
  obtain ⟨hdb, -⟩ := run_error_elim today a db db' .categoryNotFound h
  subst hdb
  exact ⟨rfl, rfl, rfl, rfl⟩

/-- The unknown category `Zzz` (no exact and no substring match against
the seeded `Food`) does make the call fail with `CategoryNotFound`. -/
theorem categoryNotFound_preserves_state_witness :
    run_add_split_expense d0 argsZzz st0 = (st0, .error .categoryNotFound) ∧
    (st0.expenses = st0.expenses ∧ st0.splits = st0.splits ∧
      st0.balances = st0.balances ∧ get_balances st0 = get_balances st0) :=
  ⟨by with_unfolding_all rfl,
   categoryNotFound_preserves_state d0 argsZzz st0 st0 (by with_unfolding_all rfl)⟩

/-! ## C8: user rows do NOT survive a failed call -/

/-- C8 counterexample: the category lookup fails only after payer `Frank`
and participant `Gina` were resolved (and hence inserted), yet after the
failed call `list_users` is empty — the user rows were rolled back with
the rest of the transaction, contradicting the claim that they persist. -/
theorem user_rows_rolled_back_counterexample :
    (run_add_split_expense d0 argsZzz2 st0).2 = .error .categoryNotFound ∧
    list_users (run_add_split_expense d0 argsZzz2 st0).1 = [] := by
  constructor <;> with_unfolding_all rfl

/-- C8 amended: identity resolution happens inside the transaction, so on
any failure the User rows created during the call are rolled back along
with everything else — `list_users` is unchanged. -/
theorem failed_call_rolls_back_users (today : Date) (a : Args) (db db' : DB)
    (e : RecErr) (h : run_add_split_expense today a db = (db', .error e)) :
    db'.users = db.users ∧ list_users db' = list_users db := by
  obtain ⟨hdb, -⟩ := run_error_elim today a db db' e h
  subst hdb
  exact ⟨rfl, rfl⟩

theorem failed_call_rolls_back_users_witness :
    run_add_split_expense d0 argsZzz2 st0 = (st0, .error .categoryNotFound) ∧
    (st0.users = st0.users ∧ list_users st0 = list_users st0) :=
  ⟨by with_unfolding_all rfl,
   failed_call_rolls_back_users d0 argsZzz2 st0 st0 .categoryNotFound
     (by with_unfolding_all rfl)⟩

/-! ## C5: balance upserts accumulate on the directed pair -/

theorem upsertBalance_hit (e : (Nat × Nat) × ℚ) (rest : List ((Nat × Nat) × ℚ))
    (amt : ℚ) : upsertBalance e.1 amt (e :: rest) = (e.1, e.2 + amt) :: rest := by
  simp [upsertBalance]

theorem upsertBalance_miss (e : (Nat × Nat) × ℚ) (rest : List ((Nat × Nat) × ℚ))
    (k : Nat × Nat) (amt : ℚ) (h : e.1 ≠ k) :
    upsertBalance k amt (e :: rest) = e :: upsertBalance k amt rest := by
  simp [upsertBalance, h]

theorem mem_upsertBalance_keys (k : Nat × Nat) (amt : ℚ)
    (bs : List ((Nat × Nat) × ℚ)) (x : Nat × Nat) :
    (x ∈ (upsertBalance k amt bs).map (fun e => e.1)) ↔
      (x ∈ bs.map (fun e => e.1) ∨ x = k) := by
  induction bs with
  | nil => simp [upsertBalance]
  | cons e rest ih =>
    by_cases h : e.1 = k
    · subst h
      rw [upsertBalance_hit]
      simp only [List.map_cons, List.mem_cons]
      tauto
    · rw [upsertBalance_miss e rest k amt h]
      simp only [List.map_cons, List.mem_cons, ih]
      tauto

theorem lookupBal_upsertBalance (bs : List ((Nat × Nat) × ℚ))
    (k k' : Nat × Nat) (amt : ℚ) :
    lookupBal k' (upsertBalance k amt bs) =
      if k' = k then some ((lookupBal k bs).getD 0 + amt)
      else lookupBal k' bs := by
  induction bs with
  | nil =>
    by_cases h : k' = k
    · subst h; simp [upsertBalance, lookupBal]
    · simp [upsertBalance, lookupBal, h, Ne.symm h]
  | cons e rest ih =>
    by_cases h1 : e.1 = k
    · subst h1
      rw [upsertBalance_hit]
      by_cases h2 : k' = e.1
      · subst h2; simp [lookupBal]
      · simp [lookupBal, h2, Ne.symm h2]
    · rw [upsertBalance_miss e rest k amt h1]
      by_cases h2 : e.1 = k'
      · subst h2
        have h3 : ¬ e.1 = k := h1
        simp [lookupBal, h3]
      · by_cases h3 : k' = k
        · subst h3
          simp [lookupBal, h2, h1, ih]
        · simp [lookupBal, h2, h3, ih]

/-- C5: the balance write is an insert-or-add upsert keyed by the directed
`(from_user, to_user)` pair: the looked-up amount after an upsert is the
previous amount (0 when absent) plus the share for the upserted key and is
unchanged for every other key; it never duplicates a key; and the concrete
scenario "A owes B 10 then 5" ends with the single row (A→B, 15). -/
theorem balance_upsert_accumulates :
    (∀ (bs : List ((Nat × Nat) × ℚ)) (k k' : Nat × Nat) (amt : ℚ),
      lookupBal k' (upsertBalance k amt bs) =
        if k' = k then some ((lookupBal k bs).getD 0 + amt)
        else lookupBal k' bs) ∧
    (∀ (bs : List ((Nat × Nat) × ℚ)) (k : Nat × Nat) (amt : ℚ),
      (bs.map (fun e => e.1)).Nodup →
        ((upsertBalance k amt bs).map (fun e => e.1)).Nodup) ∧
    ((run_add_split_expense d0 argsOwe5
        (run_add_split_expense d0 argsOwe10 st0).1).1.balances = [((2, 1), 15)] ∧
      userName (run_add_split_expense d0 argsOwe10 st0).1 2 = "A" ∧
      userName (run_add_split_expense d0 argsOwe10 st0).1 1 = "B") := by
  refine ⟨fun bs k k' amt => lookupBal_upsertBalance bs k k' amt, ?_,
    by with_unfolding_all rfl, by with_unfolding_all rfl,
    by with_unfolding_all rfl⟩
  intro bs k amt hnd
  induction bs with
  | nil => simp [upsertBalance]
  | cons e rest ih =>
    by_cases h : e.1 = k
    · subst h
      rw [upsertBalance_hit]
      simpa using hnd
    · rw [upsertBalance_miss e rest k amt h]
      simp only [List.map_cons, List.nodup_cons] at hnd ⊢
      refine ⟨?_, ih hnd.2⟩
      intro hmem
      rcases (mem_upsertBalance_keys k amt rest e.1).1 hmem with hin | hek
      · exact hnd.1 hin
      · exact h hek

theorem balance_upsert_accumulates_witness :
    (([((1, 2), (10 : ℚ))]).map (fun e => e.1)).Nodup ∧
    ((upsertBalance (3, 4) 5 [((1, 2), (10 : ℚ))]).map
      (fun e => e.1)).Nodup :=
  ⟨by decide, balance_upsert_accumulates.2.1 [((1, 2), (10 : ℚ))] (3, 4) 5
    (by decide)⟩

/-! ## Anatomy of a successful `add_split_expense` call -/

/-- A successful call decomposes into: a normalized date, a resolved
category, a computed split map, a positive amount, the new expense id
being the pre-call `nextExpenseId`, and the split/balance loop run from a
state whose splits and balances tables are still the pre-call ones. -/
theorem add_ok_elim (today : Date) (a : Args) (db db' : DB) (eid : Nat)
    (h : add_split_expense today a db = .ok (db', eid)) :
    ∃ (dt : Date) (catId : Nat) (sm : List (String × ℚ)) (db3 : DB),
      normalize_date today a.expenseDate = .ok dt ∧
      computeSplitMap a.splitType a.amount a.participants a.splits = .ok sm ∧
      ¬ a.amount ≤ 0 ∧
      eid = db.nextExpenseId ∧
      db3.splits = db.splits ∧
      db3.balances = db.balances ∧
      insertSplits eid (get_user_id a.paidBy db).1
        (resolveParticipants a.participants (get_user_id a.paidBy db).2).1
        sm db3 = .ok db' := by
  unfold add_split_expense at h
  obtain ⟨g1, g2, g3, g4, g5⟩ :=
    resolveParticipants_tables a.participants (get_user_id a.paidBy db).2
  obtain ⟨f1, f2, f3, f4, f5⟩ := get_user_id_tables a.paidBy db
  cases hnd : normalize_date today a.expenseDate with
  | error e => rw [hnd] at h; simp at h
  | ok dt =>
    rw [hnd] at h
    simp only [] at h
    cases hcat : get_category_id a.category
        (resolveParticipants a.participants (get_user_id a.paidBy db).2).2 with
    | none => simp [hcat] at h
    | some catId =>
      simp only [hcat] at h
      cases hsm : computeSplitMap a.splitType a.amount a.participants a.splits with
      | error e => simp [hsm] at h
      | ok sm =>
        simp only [hsm] at h
        by_cases hamt : a.amount ≤ 0
        · simp [if_pos hamt] at h
        · simp only [if_neg hamt] at h
          cases hins : insertSplits
              (resolveParticipants a.participants (get_user_id a.paidBy db).2).2.nextExpenseId
              (get_user_id a.paidBy db).1
              (resolveParticipants a.participants (get_user_id a.paidBy db).2).1 sm
              { (resolveParticipants a.participants (get_user_id a.paidBy db).2).2 with
                expenses :=
                  (resolveParticipants a.participants (get_user_id a.paidBy db).2).2.expenses ++
                    [⟨(resolveParticipants a.participants (get_user_id a.paidBy db).2).2.nextExpenseId,
                      a.amount, catId, a.description, dt, (get_user_id a.paidBy db).1,
                      a.splitType⟩],
                nextExpenseId :=
                  (resolveParticipants a.participants (get_user_id a.paidBy db).2).2.nextExpenseId + 1 } with
          | error e => rw [hins] at h; simp [Except.map] at h
          | ok db4 =>
            rw [hins] at h
            simp [Except.map] at h
            obtain ⟨hdb4, heid⟩ := h
            refine ⟨dt, catId, sm,
              { (resolveParticipants a.participants (get_user_id a.paidBy db).2).2 with
                expenses :=
                  (resolveParticipants a.participants (get_user_id a.paidBy db).2).2.expenses ++
                    [⟨(resolveParticipants a.participants (get_user_id a.paidBy db).2).2.nextExpenseId,
                      a.amount, catId, a.description, dt, (get_user_id a.paidBy db).1,
                      a.splitType⟩],
                nextExpenseId :=
                  (resolveParticipants a.participants (get_user_id a.paidBy db).2).2.nextExpenseId + 1 },
              rfl, rfl, hamt, ?_, ?_, ?_, ?_⟩
            · rw [← heid, g3, f3]
            · simpa using g4.trans f4
            · simpa using g5.trans f5
            · rw [← heid, ← hdb4]
              exact hins

/-! ## The split/balance loop, characterised on its success path -/

/-- On success the loop appends exactly the resolved rows to the splits
table, applies the corresponding upserts to the balances table, and
touches nothing else. -/
theorem insertSplits_ok_shape (eid payerId : Nat) (pids : List (String × Nat)) :
    ∀ (sm : List (String × ℚ)) (db db' : DB),
      insertSplits eid payerId pids sm db = .ok db' →
      ∃ rs, resolveRows eid pids sm = some rs ∧
        db'.splits = db.splits ++ rs ∧
        db'.balances = applyBalances payerId rs db.balances ∧
        db'.users = db.users ∧ db'.expenses = db.expenses ∧
        db'.categories = db.categories ∧
        db'.nextExpenseId = db.nextExpenseId ∧
        db'.nextUserId = db.nextUserId := by
  intro sm
  induction sm with
  | nil =>
    intro db db' h
    simp only [insertSplits] at h
    obtain rfl : db = db' := by injection h
    exact ⟨[], rfl, by simp, by simp [applyBalances], rfl, rfl, rfl, rfl, rfl⟩
  | cons ua rest ih =>
    obtain ⟨user, amt⟩ := ua
    intro db db' h
    simp only [insertSplits] at h
    cases hdl : dlookup user pids with
    | none => simp [hdl] at h
    | some uid =>
      simp only [hdl] at h
      by_cases hhs : hasSplitRow eid uid db.splits
      · simp [if_pos hhs] at h
      · simp only [if_neg hhs] at h
        by_cases hup : uid ≠ payerId
        · rw [if_pos hup] at h
          obtain ⟨rs', hres, hsp, hbal, hus, hex, hcat, hnei, hnui⟩ := ih _ _ h
          refine ⟨(eid, uid, amt) :: rs',
            by simp [resolveRows, hdl, hres], ?_, ?_, ?_, ?_, ?_, ?_, ?_⟩
          · simpa [List.append_assoc] using hsp
          · simpa [applyBalances, hup] using hbal
          · simpa using hus
          · simpa using hex
          · simpa using hcat
          · simpa using hnei
          · simpa using hnui
        · rw [if_neg hup] at h
          push_neg at hup
          obtain ⟨rs', hres, hsp, hbal, hus, hex, hcat, hnei, hnui⟩ := ih _ _ h
          refine ⟨(eid, uid, amt) :: rs',
            by simp [resolveRows, hdl, hres], ?_, ?_, ?_, ?_, ?_, ?_, ?_⟩
          · simpa [List.append_assoc] using hsp
          · simpa [applyBalances, hup] using hbal
          · simpa using hus
          · simpa using hex
          · simpa using hcat
          · simpa using hnei
          · simpa using hnui

/-- Every resolved row carries the expense id, an amount coming verbatim
from its split-map entry, and a uid obtained from `participant_ids`;
amounts and length are preserved entry by entry. -/
theorem resolveRows_shape (eid : Nat) (pids : List (String × Nat)) :
    ∀ (sm : List (String × ℚ)) (rs : List (Nat × Nat × ℚ)),
      resolveRows eid pids sm = some rs →
      rs.map (fun r => r.2.2) = sm.map (fun e => e.2) ∧
      rs.length = sm.length ∧
      ∀ r ∈ rs, r.1 = eid ∧
        ∃ u ∈ sm, dlookup u.1 pids = some r.2.1 ∧ r.2.2 = u.2 := by
  intro sm
  induction sm with
  | nil =>
    intro rs h
    simp only [resolveRows] at h
    obtain rfl : ([] : List (Nat × Nat × ℚ)) = rs := by injection h
    simp
  | cons ua rest ih =>
    obtain ⟨user, amt⟩ := ua
    intro rs h
    simp only [resolveRows] at h
    cases hdl : dlookup user pids with
    | none => simp [hdl] at h
    | some uid =>
      simp only [hdl] at h
      cases hres : resolveRows eid pids rest with
      | none => simp [hres] at h
      | some rs' =>
        simp only [hres] at h
        obtain rfl : (eid, uid, amt) :: rs' = rs := by injection h
        obtain ⟨ham, hlen, hmem⟩ := ih rs' hres
        refine ⟨by simp [ham], by simp [hlen], ?_⟩
        intro r hr
        rcases List.mem_cons.1 hr with rfl | hr'
        · exact ⟨rfl, (user, amt), List.mem_cons_self _ _, hdl, rfl⟩
        · obtain ⟨h1, u, hu, h2, h3⟩ := hmem r hr'
          exact ⟨h1, u, List.mem_cons_of_mem _ hu, h2, h3⟩

/-- A split-map key missing from `participant_ids` makes resolution
fail (the loop's `KeyError`). -/
theorem resolveRows_none (eid : Nat) (pids : List (String × Nat)) :
    ∀ (sm : List (String × ℚ)) (u : String × ℚ),
      u ∈ sm → dlookup u.1 pids = none → resolveRows eid pids sm = none := by
  intro sm
  induction sm with
  | nil => intro u hu; intro hh; exact absurd hu (List.not_mem_nil u)
  | cons ua rest ih =>
    intro u hu hnone
    rcases List.mem_cons.1 hu with rfl | hu'
    · simp [resolveRows, hnone]
    · obtain ⟨user, amt⟩ := ua
      simp only [resolveRows, ih u hu' hnone]
      cases dlookup user pids <;> simp

/-! ## Rounding bounds -/

theorem abs_roundHalfEven_sub_le (q : ℚ) :
    |(roundHalfEven q : ℚ) - q| ≤ 1 / 2 := by
  unfold roundHalfEven
  have h0 : (0 : ℚ) ≤ q - ⌊q⌋ := sub_nonneg.2 (Int.floor_le q)
  have h1 : q - ⌊q⌋ < 1 := by
    have := Int.lt_floor_add_one q
    push_cast at this ⊢
    linarith
  by_cases hlt : q - ⌊q⌋ < 1 / 2
  · rw [if_pos hlt, abs_le]
    constructor <;> push_cast <;> linarith
  · rw [if_neg hlt]
    by_cases hgt : q - ⌊q⌋ > 1 / 2
    · rw [if_pos hgt, abs_le]
      constructor <;> push_cast <;> linarith
    · rw [if_neg hgt]
      have heq : q - ⌊q⌋ = 1 / 2 := le_antisymm (not_lt.1 hgt) (not_lt.1 hlt)
      by_cases hpar : (⌊q⌋ : ℤ) % 2 = 0
      · rw [if_pos hpar, abs_le]
        constructor <;> push_cast <;> linarith
      · rw [if_neg hpar, abs_le]
        constructor <;> push_cast <;> linarith

theorem abs_round2_sub_le (q : ℚ) : |round2 q - q| ≤ 1 / 200 := by
  unfold round2
  have h := abs_roundHalfEven_sub_le (100 * q)
  have hrw : (roundHalfEven (100 * q) : ℚ) / 100 - q =
      ((roundHalfEven (100 * q) : ℚ) - 100 * q) / 100 := by ring
  rw [hrw, abs_div]
  rw [show |(100 : ℚ)| = 100 by norm_num]
  linarith

/-! ## Python-dict lemmas -/

theorem dinsert_hit {α : Type} (e : String × α) (rest : List (String × α))
    (v : α) : dinsert e.1 v (e :: rest) = (e.1, v) :: rest := by
  simp [dinsert]

theorem dinsert_miss {α : Type} (e : String × α) (rest : List (String × α))
    (k : String) (v : α) (h : e.1 ≠ k) :
    dinsert k v (e :: rest) = e :: dinsert k v rest := by
  simp [dinsert, h]

theorem mem_dinsert {α : Type} (k : String) (v : α) :
    ∀ (m : List (String × α)) (e : String × α),
      e ∈ dinsert k v m → e = (k, v) ∨ e ∈ m := by
  intro m
  induction m with
  | nil => intro e he; simp [dinsert] at he; simp [he]
  | cons f rest ih =>
    intro e he
    by_cases hf : f.1 = k
    · subst hf
      rw [dinsert_hit] at he
      rcases List.mem_cons.1 he with rfl | hr
      · exact Or.inl rfl
      · exact Or.inr (List.mem_cons_of_mem _ hr)
    · rw [dinsert_miss f rest k v hf] at he
      rcases List.mem_cons.1 he with rfl | hr
      · exact Or.inr (List.mem_cons_self _ _)
      · rcases ih e hr with h | h
        · exact Or.inl h
        · exact Or.inr (List.mem_cons_of_mem _ h)

theorem dlookup_dinsert {α : Type} (k k' : String) (v : α) :
    ∀ (m : List (String × α)),
      dlookup k' (dinsert k v m) = if k' = k then some v else dlookup k' m := by
  intro m
  induction m with
  | nil =>
    by_cases h : k' = k
    · subst h; simp [dinsert, dlookup]
    · simp [dinsert, dlookup, h, Ne.symm h]
  | cons e rest ih =>
    by_cases h1 : e.1 = k
    · subst h1
      rw [dinsert_hit]
      by_cases h2 : k' = e.1
      · subst h2; simp [dlookup]
      · simp [dlookup, h2, Ne.symm h2]
    · rw [dinsert_miss e rest k v h1]
      by_cases h2 : e.1 = k'
      · subst h2
        have h3 : ¬ e.1 = k := h1
        simp [dlookup, h3]
      · by_cases h3 : k' = k
        · subst h3
          simp [dlookup, h2, h1, ih]
        · simp [dlookup, h2, h3, ih]

theorem dlookup_none_elim {α : Type} (k : String) (e : String × α) :
    ∀ (m : List (String × α)), dlookup k m = none → e ∈ m → e.1 ≠ k := by
  intro m
  induction m with
  | nil => intro _ he; exact absurd he (List.not_mem_nil e)
  | cons f rest ih =>
    intro h he
    by_cases hf : f.1 = k
    · simp [dlookup, hf] at h
    · rcases List.mem_cons.1 he with rfl | hr
      · exact hf
      · exact ih (by simpa [dlookup, hf] using h) hr

theorem dinsert_length_of_none {α : Type} (k : String) (v : α) :
    ∀ (m : List (String × α)), dlookup k m = none →
      (dinsert k v m).length = m.length + 1 := by
  intro m
  induction m with
  | nil => intro _; simp [dinsert]
  | cons e rest ih =>
    intro h
    by_cases hf : e.1 = k
    · simp [dlookup, hf] at h
    · rw [dinsert_miss e rest k v hf]
      simp [ih (by simpa [dlookup, hf] using h)]

/-! ## Split-map characterisation per policy -/

theorem computeSplitMap_equal_elim (amount : ℚ) (ps : List String)
    (splits : Option (List (String × ℚ))) (sm : List (String × ℚ))
    (h : computeSplitMap "equal" amount ps splits = .ok sm) :
    ps.length ≠ 0 ∧ sm = equalMap ps (round2 (amount / ps.length)) := by
  by_cases hz : ps.length = 0
  · simp [computeSplitMap, hz] at h
  · simp [computeSplitMap, hz] at h
    exact ⟨hz, h.symm⟩

theorem computeSplitMap_unequal_elim (amount : ℚ) (ps : List String)
    (l sm : List (String × ℚ))
    (h : computeSplitMap "unequal" amount ps (some l) = .ok sm) :
    l ≠ [] ∧ sm = l := by
  by_cases hl : l = []
  · simp [computeSplitMap, hl] at h
  · simp [computeSplitMap, hl] at h
    exact ⟨hl, h.symm⟩

/-! ## equalMap: the dict comprehension with a constant value -/

theorem equalMap_values (share : ℚ) :
    ∀ (ps : List String) (m : List (String × ℚ)),
      (∀ e ∈ m, e.2 = share) →
      ∀ e ∈ ps.foldl (fun m p => dinsert p share m) m, e.2 = share := by
  intro ps
  induction ps with
  | nil => intro m hm; simpa using hm
  | cons p rest ih =>
    intro m hm e he
    refine ih (dinsert p share m) ?_ e (by simpa using he)
    intro f hf
    rcases mem_dinsert p share m f hf with rfl | hfm
    · rfl
    · exact hm f hfm

theorem equalMap_length (share : ℚ) :
    ∀ (ps : List String) (m : List (String × ℚ)),
      ps.Nodup → (∀ p ∈ ps, dlookup p m = none) →
      (ps.foldl (fun m p => dinsert p share m) m).length =
        m.length + ps.length := by
  intro ps
  induction ps with
  | nil => intro m _ _; simp
  | cons p rest ih =>
    intro m hnd hnone
    have hpm : dlookup p m = none := hnone p (List.mem_cons_self _ _)
    have hrest : ∀ q ∈ rest, dlookup q (dinsert p share m) = none := by
      intro q hq
      have hqp : q ≠ p := by
        intro hh
        subst hh
        exact (List.nodup_cons.1 hnd).1 hq
      rw [dlookup_dinsert p q share m, if_neg hqp]
      exact hnone q (List.mem_cons_of_mem _ hq)
    have := ih (dinsert p share m) (List.nodup_cons.1 hnd).2 hrest
    simp only [List.foldl_cons]
    rw [this, dinsert_length_of_none p share m hpm, List.length_cons]
    omega

/-! ## List auxiliaries -/

theorem list_sum_all_eq (c : ℚ) :
    ∀ (L : List ℚ), (∀ x ∈ L, x = c) → L.sum = L.length * c := by
  intro L
  induction L with
  | nil => intro _; simp
  | cons x rest ih =>
    intro h
    have hx : x = c := h x (List.mem_cons_self _ _)
    have hrest := ih (fun y hy => h y (List.mem_cons_of_mem _ hy))
    simp only [List.sum_cons, List.length_cons, hx, hrest]
    push_cast
    ring

theorem filter_eid_nil (eid : Nat) (L : List (Nat × Nat × ℚ))
    (h : ∀ r ∈ L, r.1 ≠ eid) : L.filter (fun r => r.1 == eid) = [] := by
  rw [List.filter_eq_nil_iff]
  intro r hr
  simp [h r hr]

theorem filter_eid_self (eid : Nat) (L : List (Nat × Nat × ℚ))
    (h : ∀ r ∈ L, r.1 = eid) : L.filter (fun r => r.1 == eid) = L := by
  rw [List.filter_eq_self]
  intro r hr
  simp [h r hr]

/-! ## C2: split-sum conservation -/

/-- C2 counterexample: under the `unequal` policy the explicit shares are
persisted verbatim with no sum validation, so an expense of 30 split as
1 + 2 succeeds while its persisted split amounts sum to 3 — far outside
the claimed 0.005-per-participant tolerance. -/
theorem split_sum_counterexample :
    (run_add_split_expense d0 argsUnequalBad st0).2 = .ok 1 ∧
    splitSum (run_add_split_expense d0 argsUnequalBad st0).1 1 = 3 ∧
    ¬ |splitSum (run_add_split_expense d0 argsUnequalBad st0).1 1 -
          argsUnequalBad.amount| ≤
        (argsUnequalBad.participants.length : ℚ) * (1 / 200) := by
  have h2 : splitSum (run_add_split_expense d0 argsUnequalBad st0).1 1 = 3 := by
    with_unfolding_all rfl
  refine ⟨by with_unfolding_all rfl, h2, ?_⟩
  rw [h2]
  norm_num [argsUnequalBad]

/-- C2 amended: only the `equal` policy guarantees the tolerance. For an
expense recorded under `equal` with pairwise-distinct participant names,
the persisted split amounts sum to the total within 0.005 per
participant; under `unequal` the caller's shares are persisted verbatim
with no validation of their sum. -/
theorem split_sum_tolerance :
    (∀ (today : Date) (a : Args) (db db' : DB) (eid : Nat),
      a.splitType = "equal" → a.participants.Nodup →
      (∀ r ∈ db.splits, r.1 ≠ db.nextExpenseId) →
      run_add_split_expense today a db = (db', .ok eid) →
      |splitSum db' eid - a.amount| ≤
        (a.participants.length : ℚ) * (1 / 200)) ∧
    (∀ (today : Date) (a : Args) (db db' : DB) (eid : Nat)
        (l : List (String × ℚ)),
      a.splitType = "unequal" → a.splits = some l →
      (∀ r ∈ db.splits, r.1 ≠ db.nextExpenseId) →
      run_add_split_expense today a db = (db', .ok eid) →
      (db'.splits.filter (fun r => r.1 == eid)).map (fun r => r.2.2) =
        l.map (fun e => e.2)) := by
  constructor
  · intro today a db db' eid hpol hnd hfresh hrun
    obtain ⟨dt, catId, sm, db3, hndate, hsm, hamt, heid, hsp3, hbal3, hins⟩ :=
      add_ok_elim today a db db' eid (run_ok_elim today a db db' eid hrun)
    rw [hpol] at hsm
    obtain ⟨hlen0, hsmeq⟩ :=
      computeSplitMap_equal_elim a.amount a.participants a.splits sm hsm
    obtain ⟨rs, hres, hsp, hbal, -, -, -, -, -⟩ :=
      insertSplits_ok_shape _ _ _ sm db3 db' hins
    obtain ⟨hamts, hlen, hmem⟩ := resolveRows_shape _ _ sm rs hres
    have hold : db3.splits.filter (fun r => r.1 == eid) = [] := by
      refine filter_eid_nil eid db3.splits ?_
      intro r hr
      rw [hsp3] at hr
      rw [heid]
      exact hfresh r hr
    have hnew : rs.filter (fun r => r.1 == eid) = rs := by
      refine filter_eid_self eid rs ?_
      intro r hr
      exact (hmem r hr).1
    have hfonly : db'.splits.filter (fun r => r.1 == eid) = rs := by
      rw [hsp, List.filter_append, hold, hnew, List.nil_append]
    have hsum : splitSum db' eid = ((rs.map (fun r => r.2.2)).sum) := by
      unfold splitSum
      rw [hfonly]
    set share := round2 (a.amount / a.participants.length) with hshare
    have hvals : ∀ x ∈ rs.map (fun r => r.2.2), x = share := by
      intro x hx
      obtain ⟨r, hr, rfl⟩ := List.mem_map.1 hx
      obtain ⟨-, u, hu, -, hru⟩ := hmem r hr
      rw [hru]
      have hu2 : u ∈ equalMap a.participants share := by rw [← hsmeq]; exact hu
      exact equalMap_values share a.participants [] (by simp) u
        (by simpa [equalMap] using hu2)
    have hlensm : sm.length = a.participants.length := by
      rw [hsmeq]
      have := equalMap_length share a.participants [] hnd
        (by intro p hp; simp [dlookup])
      simpa [equalMap] using this
    have hsumval : splitSum db' eid = (a.participants.length : ℚ) * share := by
      rw [hsum, list_sum_all_eq share _ hvals]
      simp [hlen, hlensm]
    have hn0 : ((a.participants.length : ℚ)) ≠ 0 := by
      exact_mod_cast hlen0
    have hbound := abs_round2_sub_le (a.amount / a.participants.length)
    have hfact : splitSum db' eid - a.amount =
        (a.participants.length : ℚ) *
          (share - a.amount / a.participants.length) := by
      rw [hsumval]
      field_simp
      ring
    rw [hfact, abs_mul, abs_of_nonneg (by positivity :
      (0 : ℚ) ≤ (a.participants.length : ℚ))]
    exact mul_le_mul_of_nonneg_left hbound (by positivity)
  · intro today a db db' eid l hpol hsplits hfresh hrun
    obtain ⟨dt, catId, sm, db3, hndate, hsm, hamt, heid, hsp3, hbal3, hins⟩ :=
      add_ok_elim today a db db' eid (run_ok_elim today a db db' eid hrun)
    rw [hpol, hsplits] at hsm
    obtain ⟨-, hsmeq⟩ :=
      computeSplitMap_unequal_elim a.amount a.participants l sm hsm
    obtain ⟨rs, hres, hsp, hbal, -, -, -, -, -⟩ :=
      insertSplits_ok_shape _ _ _ sm db3 db' hins
    obtain ⟨hamts, hlen, hmem⟩ := resolveRows_shape _ _ sm rs hres
    have hold : db3.splits.filter (fun r => r.1 == eid) = [] := by
      refine filter_eid_nil eid db3.splits ?_
      intro r hr
      rw [hsp3] at hr
      rw [heid]
      exact hfresh r hr
    have hnew : rs.filter (fun r => r.1 == eid) = rs := by
      refine filter_eid_self eid rs ?_
      intro r hr
      exact (hmem r hr).1
    rw [hsp, List.filter_append, hold, hnew, List.nil_append, hamts, hsmeq]

/-- C2 witness: the equal-split scenario satisfies the hypotheses and the
tolerance bound. -/
theorem split_sum_tolerance_witness :
    argsEqual3.splitType = "equal" ∧ argsEqual3.participants.Nodup ∧
    run_add_split_expense d0 argsEqual3 st0 =
      ((run_add_split_expense d0 argsEqual3 st0).1, .ok 1) ∧
    |splitSum (run_add_split_expense d0 argsEqual3 st0).1 1 -
        argsEqual3.amount| ≤
      (argsEqual3.participants.length : ℚ) * (1 / 200) := by
  refine ⟨rfl, by decide, by with_unfolding_all rfl, ?_⟩
  exact split_sum_tolerance.1 d0 argsEqual3 st0 _ 1 rfl (by decide)
    (fun r hr => absurd hr (by simp [st0]))
    (by with_unfolding_all rfl)

/-! ## C3: equal shares -/

/-- C3: under the `equal` policy every ExpenseSplit row persisted for the
new expense carries round(amount / participant_count, 2), and the
concrete scenario `record_expense(amount=30, category="Food",
payer="Alice", participants=[Alice, Bob, Carol], policy="equal")`
persists three rows of 10.00, Balance rows (Bob→Alice, 10) and
(Carol→Alice, 10), and no Balance row for Alice. -/
theorem equal_split_scenario :
    (∀ (today : Date) (a : Args) (db db' : DB) (eid : Nat),
      a.splitType = "equal" →
      (∀ r ∈ db.splits, r.1 ≠ db.nextExpenseId) →
      run_add_split_expense today a db = (db', .ok eid) →
      ∀ r ∈ db'.splits, r.1 = eid →
        r.2.2 = round2 (a.amount / (a.participants.length : ℚ))) ∧
    run_add_split_expense d0 argsEqual3 st0 =
      (⟨[(1, "Alice"), (2, "Bob"), (3, "Carol")], 4, [(1, "Food")],
        [⟨1, 30, 1, none, d0, 1, "equal"⟩], 2,
        [(1, 1, 10), (1, 2, 10), (1, 3, 10)],
        [((2, 1), 10), ((3, 1), 10)]⟩, .ok 1) ∧
    get_balances (run_add_split_expense d0 argsEqual3 st0).1 =
      [("Bob", "Alice", 10), ("Carol", "Alice", 10)] := by
  refine ⟨?_, by with_unfolding_all rfl, by with_unfolding_all rfl⟩
  intro today a db db' eid hpol hfresh hrun
  obtain ⟨dt, catId, sm, db3, hndate, hsm, hamt, heid, hsp3, hbal3, hins⟩ :=
    add_ok_elim today a db db' eid (run_ok_elim today a db db' eid hrun)
  rw [hpol] at hsm
  obtain ⟨hlen0, hsmeq⟩ :=
    computeSplitMap_equal_elim a.amount a.participants a.splits sm hsm
  obtain ⟨rs, hres, hsp, hbal, -, -, -, -, -⟩ :=
    insertSplits_ok_shape _ _ _ sm db3 db' hins
  obtain ⟨hamts, hlen, hmem⟩ := resolveRows_shape _ _ sm rs hres
  intro r hr hre
  rw [hsp] at hr
  rcases List.mem_append.1 hr with hr3 | hrs
  · rw [hsp3] at hr3
    rw [heid] at hre
    exact absurd hre (hfresh r hr3)
  · obtain ⟨-, u, hu, -, hru⟩ := hmem r hrs
    rw [hru]
    have hu2 : u ∈ equalMap a.participants
        (round2 (a.amount / a.participants.length)) := by
      rw [← hsmeq]; exact hu
    exact equalMap_values (round2 (a.amount / a.participants.length))
      a.participants [] (by simp) u (by simpa [equalMap] using hu2)

/-- C3 witness: the row (1, 2, 10) persisted for Bob in the scenario
indeed carries round(30 / 3, 2). -/
theorem equal_split_scenario_witness :
    ((1, 2, (10 : ℚ)) : Nat × Nat × ℚ).2.2 =
      round2 (argsEqual3.amount / (argsEqual3.participants.length : ℚ)) := by
  refine equal_split_scenario.1 d0 argsEqual3 st0
    (run_add_split_expense d0 argsEqual3 st0).1 1 rfl
    (fun r hr => absurd hr (by simp [st0]))
    (by with_unfolding_all rfl) (1, 2, 10) ?_ rfl
  rw [show (run_add_split_expense d0 argsEqual3 st0).1 =
      (⟨[(1, "Alice"), (2, "Bob"), (3, "Carol")], 4, [(1, "Food")],
        [⟨1, 30, 1, none, d0, 1, "equal"⟩], 2,
        [(1, 1, 10), (1, 2, 10), (1, 3, 10)],
        [((2, 1), 10), ((3, 1), 10)]⟩ : DB) from by with_unfolding_all rfl]
  decide

/-! ## applyBalances: what the loop's upserts do to the balance table -/

theorem mem_upsertBalance (k : Nat × Nat) (amt : ℚ) :
    ∀ (bs : List ((Nat × Nat) × ℚ)) (b : (Nat × Nat) × ℚ),
      b ∈ upsertBalance k amt bs → b.1 = k ∨ b ∈ bs := by
  intro bs
  induction bs with
  | nil =>
    intro b hb
    simp only [upsertBalance, List.mem_singleton] at hb
    subst hb
    exact Or.inl rfl
  | cons e rest ih =>
    intro b hb
    by_cases h : e.1 = k
    · subst h
      rw [upsertBalance_hit] at hb
      rcases List.mem_cons.1 hb with rfl | hr
      · exact Or.inl rfl
      · exact Or.inr (List.mem_cons_of_mem _ hr)
    · rw [upsertBalance_miss e rest k amt h] at hb
      rcases List.mem_cons.1 hb with rfl | hr
      · exact Or.inr (List.mem_cons_self _ _)
      · rcases ih b hr with h1 | h1
        · exact Or.inl h1
        · exact Or.inr (List.mem_cons_of_mem _ h1)

theorem applyBalances_selfloop (payerId : Nat) :
    ∀ (rows : List (Nat × Nat × ℚ)) (bs : List ((Nat × Nat) × ℚ)),
      (∀ b ∈ bs, b.1.1 ≠ b.1.2) →
      ∀ b ∈ applyBalances payerId rows bs, b.1.1 ≠ b.1.2 := by
  intro rows
  induction rows with
  | nil => intro bs h; simpa [applyBalances] using h
  | cons r rest ih =>
    intro bs h b hb
    rw [show applyBalances payerId (r :: rest) bs =
        applyBalances payerId rest
          (if r.2.1 ≠ payerId then upsertBalance (r.2.1, payerId) r.2.2 bs
           else bs) from by simp [applyBalances]] at hb
    by_cases hup : r.2.1 ≠ payerId
    · rw [if_pos hup] at hb
      refine ih _ ?_ b hb
      intro c hc
      rcases mem_upsertBalance (r.2.1, payerId) r.2.2 bs c hc with h1 | h1
      · rw [h1]; exact hup
      · exact h c h1
    · rw [if_neg hup] at hb
      exact ih bs h b hb

theorem applyBalances_untouched (payerId : Nat) :
    ∀ (rows : List (Nat × Nat × ℚ)) (bs : List ((Nat × Nat) × ℚ))
      (k : Nat × Nat),
      (∀ r ∈ rows, r.2.1 = payerId ∨ (r.2.1, payerId) ≠ k) →
      lookupBal k (applyBalances payerId rows bs) = lookupBal k bs := by
  intro rows
  induction rows with
  | nil => intro bs k _; simp [applyBalances]
  | cons r rest ih =>
    intro bs k h
    rw [show applyBalances payerId (r :: rest) bs =
        applyBalances payerId rest
          (if r.2.1 ≠ payerId then upsertBalance (r.2.1, payerId) r.2.2 bs
           else bs) from by simp [applyBalances]]
    have htail := fun q hq => h q (List.mem_cons_of_mem _ hq)
    by_cases hup : r.2.1 ≠ payerId
    · rw [if_pos hup]
      rw [ih _ k htail]
      rcases h r (List.mem_cons_self _ _) with h1 | h1
      · exact absurd h1 hup
      · rw [lookupBal_upsertBalance, if_neg (fun hh : k = (r.2.1, payerId) =>
          h1 hh.symm)]
    · rw [if_neg hup]
      exact ih bs k htail

theorem applyBalances_isSome (payerId : Nat) :
    ∀ (rows : List (Nat × Nat × ℚ)) (bs : List ((Nat × Nat) × ℚ))
      (k : Nat × Nat),
      (lookupBal k bs).isSome →
      (lookupBal k (applyBalances payerId rows bs)).isSome := by
  intro rows
  induction rows with
  | nil => intro bs k h; simpa [applyBalances] using h
  | cons r rest ih =>
    intro bs k h
    rw [show applyBalances payerId (r :: rest) bs =
        applyBalances payerId rest
          (if r.2.1 ≠ payerId then upsertBalance (r.2.1, payerId) r.2.2 bs
           else bs) from by simp [applyBalances]]
    by_cases hup : r.2.1 ≠ payerId
    · rw [if_pos hup]
      refine ih _ k ?_
      rw [lookupBal_upsertBalance]
      by_cases hk : k = (r.2.1, payerId)
      · rw [if_pos hk]; rfl
      · rw [if_neg hk]; exact h
    · rw [if_neg hup]
      exact ih bs k h

theorem applyBalances_touched (payerId : Nat) :
    ∀ (rows : List (Nat × Nat × ℚ)) (bs : List ((Nat × Nat) × ℚ))
      (k : Nat × Nat),
      (∃ r ∈ rows, (r.2.1, payerId) = k ∧ r.2.1 ≠ payerId) →
      (lookupBal k (applyBalances payerId rows bs)).isSome := by
  intro rows
  induction rows with
  | nil => intro bs k h; simp at h
  | cons r rest ih =>
    intro bs k h
    rw [show applyBalances payerId (r :: rest) bs =
        applyBalances payerId rest
          (if r.2.1 ≠ payerId then upsertBalance (r.2.1, payerId) r.2.2 bs
           else bs) from by simp [applyBalances]]
    obtain ⟨q, hq, hqk, hqp⟩ := h
    rcases List.mem_cons.1 hq with rfl | hq'
    · rw [if_pos hqp]
      refine applyBalances_isSome payerId rest _ k ?_
      rw [lookupBal_upsertBalance, if_pos hqk.symm]
      rfl
    · by_cases hup : r.2.1 ≠ payerId
      · rw [if_pos hup]
        exact ih _ k ⟨q, hq', hqk, hqp⟩
      · rw [if_neg hup]
        exact ih bs k ⟨q, hq', hqk, hqp⟩

/-- Forward direction of row resolution: every split-map entry yields a
row in the resolved list. -/
theorem resolveRows_forward (eid : Nat) (pids : List (String × Nat)) :
    ∀ (sm : List (String × ℚ)) (rs : List (Nat × Nat × ℚ)),
      resolveRows eid pids sm = some rs →
      ∀ u ∈ sm, ∃ uid, dlookup u.1 pids = some uid ∧ (eid, uid, u.2) ∈ rs := by
  intro sm
  induction sm with
  | nil => intro rs _ u hu; exact absurd hu (List.not_mem_nil u)
  | cons ua rest ih =>
    obtain ⟨user, amt⟩ := ua
    intro rs h u hu
    simp only [resolveRows] at h
    cases hdl : dlookup user pids with
    | none => simp [hdl] at h
    | some uid =>
      simp only [hdl] at h
      cases hres : resolveRows eid pids rest with
      | none => simp [hres] at h
      | some rs' =>
        simp only [hres] at h
        obtain rfl : (eid, uid, amt) :: rs' = rs := by injection h
        rcases List.mem_cons.1 hu with rfl | hu'
        · exact ⟨uid, hdl, List.mem_cons_self _ _⟩
        · obtain ⟨uid', h1, h2⟩ := ih rs' hres u hu'
          exact ⟨uid', h1, List.mem_cons_of_mem _ h2⟩

/-! ## C4: which balance rows a call touches -/

/-- C4 counterexample: under the `unequal` policy, participant `Carol`
(user id 3) resolves to an id different from payer `Alice` (id 1), yet
because `Carol` is not a key of `splits` no Balance row (3→1) is created
or updated — the call succeeds and the balance table holds only the row
for `Bob`. -/
theorem balance_iff_counterexample :
    (run_add_split_expense d0 argsNoCarol st0).2 = .ok 1 ∧
    (run_add_split_expense d0 argsNoCarol st0).1.users =
      [(1, "Alice"), (2, "Bob"), (3, "Carol")] ∧
    (run_add_split_expense d0 argsNoCarol st0).1.balances = [((2, 1), 30)] ∧
    lookupBal (3, 1) (run_add_split_expense d0 argsNoCarol st0).1.balances =
      none := by
  refine ⟨?_, ?_, ?_, ?_⟩ <;> with_unfolding_all rfl

/-- C4 amended: on a successful call the balance rows created or updated
are exactly the pairs `(uid, payer)` for the keys of the computed split
map resolving to a non-payer uid (`touchedPair`); every other pair reads
exactly as before, and no row with `from_user = to_user` is ever
introduced. A participant that is not a split-map key causes no balance
change even when its id differs from the payer's. -/
theorem balance_touched_iff (today : Date) (a : Args) (db db' : DB)
    (eid : Nat) (sm : List (String × ℚ))
    (hsm : computeSplitMap a.splitType a.amount a.participants a.splits = .ok sm)
    (hrun : run_add_split_expense today a db = (db', .ok eid)) :
    ((∀ b ∈ db.balances, b.1.1 ≠ b.1.2) →
      ∀ b ∈ db'.balances, b.1.1 ≠ b.1.2) ∧
    (∀ k : Nat × Nat,
      ¬ touchedPair sm
          (resolveParticipants a.participants (get_user_id a.paidBy db).2).1
          (get_user_id a.paidBy db).1 k →
        lookupBal k db'.balances = lookupBal k db.balances) ∧
    (∀ k : Nat × Nat,
      touchedPair sm
          (resolveParticipants a.participants (get_user_id a.paidBy db).2).1
          (get_user_id a.paidBy db).1 k →
        (lookupBal k db'.balances).isSome) := by
  obtain ⟨dt, catId, sm', db3, hndate, hsm', hamt, heid, hsp3, hbal3, hins⟩ :=
    add_ok_elim today a db db' eid (run_ok_elim today a db db' eid hrun)
  obtain rfl : sm' = sm := by
    have h2 := hsm'.symm.trans hsm
    injection h2
  obtain ⟨rs, hres, hsp, hbal, -, -, -, -, -⟩ :=
    insertSplits_ok_shape _ _ _ sm' db3 db' hins
  obtain ⟨hamts, hlen, hmem⟩ := resolveRows_shape _ _ sm' rs hres
  rw [hbal3] at hbal
  refine ⟨?_, ?_, ?_⟩
  · intro hpre b hb
    rw [hbal] at hb
    exact applyBalances_selfloop _ rs db.balances hpre b hb
  · intro k hk
    rw [hbal]
    refine applyBalances_untouched _ rs db.balances k ?_
    intro r hr
    by_cases hrp : r.2.1 = (get_user_id a.paidBy db).1
    · exact Or.inl hrp
    · refine Or.inr ?_
      intro hkk
      obtain ⟨-, u, hu, hdl, -⟩ := hmem r hr
      exact hk ⟨u, hu, by rw [← hkk]; exact hdl, by rw [← hkk]; exact hrp,
        by rw [← hkk]⟩
  · intro k hk
    rw [hbal]
    obtain ⟨u, hu, hdl, hk1, hk2⟩ := hk
    obtain ⟨uid, hdl', hrow⟩ := resolveRows_forward _ _ sm' rs hres u hu
    obtain rfl : uid = k.1 := by
      have := hdl'.symm.trans hdl
      injection this
    refine applyBalances_touched _ rs db.balances k ⟨(eid, k.1, u.2), hrow, ?_, hk1⟩
    show ((k.1 : Nat), (get_user_id a.paidBy db).1) = k
    rw [Prod.ext_iff]
    exact ⟨rfl, hk2.symm⟩

/-- C4 witness: in the equal-split scenario the pair (Bob → Alice) is
touched and its balance row exists afterwards. -/
theorem balance_touched_iff_witness :
    computeSplitMap argsEqual3.splitType argsEqual3.amount
      argsEqual3.participants argsEqual3.splits =
      .ok [("Alice", 10), ("Bob", 10), ("Carol", 10)] ∧
    run_add_split_expense d0 argsEqual3 st0 =
      ((run_add_split_expense d0 argsEqual3 st0).1, .ok 1) ∧
    (lookupBal (2, 1)
      (run_add_split_expense d0 argsEqual3 st0).1.balances).isSome := by
  refine ⟨by with_unfolding_all rfl, by with_unfolding_all rfl, ?_⟩
  refine (balance_touched_iff d0 argsEqual3 st0 _ 1
    [("Alice", 10), ("Bob", 10), ("Carol", 10)]
    (by with_unfolding_all rfl) (by with_unfolding_all rfl)).2.2 (2, 1) ?_
  refine ⟨("Bob", 10), by decide, ?_, ?_, ?_⟩
  · with_unfolding_all rfl
  · with_unfolding_all exact (by decide : (2 : Nat) ≠ 1)
  · with_unfolding_all rfl

/-! ## C7: duplicate participants -/

/-- C7 counterexample: the participant name `Bob` appears twice, yet the
call succeeds (dict construction collapses exact duplicates) and persists
one split row per distinct name — no `DuplicateParticipant` failure. -/
theorem duplicate_name_counterexample :
    (run_add_split_expense d0 argsDupBob st0).2 = .ok 1 ∧
    (run_add_split_expense d0 argsDupBob st0).1.splits =
      [(1, 1, 10), (1, 2, 10)] := by
  constructor <;> with_unfolding_all rfl

theorem hasSplitRow_false_not_mem (eid uid : Nat) :
    ∀ (L : List (Nat × Nat × ℚ)), hasSplitRow eid uid L = false →
      uid ∉ (L.filter (fun r => r.1 == eid)).map (fun r => r.2.1) := by
  intro L
  induction L with
  | nil => intro _; simp
  | cons r rest ih =>
    intro h
    simp only [hasSplitRow] at h
    by_cases hc : r.1 = eid ∧ r.2.1 = uid
    · rw [if_pos hc] at h
      exact absurd h (by simp)
    · rw [if_neg hc] at h
      by_cases hre : r.1 = eid
      · have hru : r.2.1 ≠ uid := fun hh => hc ⟨hre, hh⟩
        rw [List.filter_cons, if_pos (by simp [hre]), List.map_cons]
        intro hmem
        rcases List.mem_cons.1 hmem with heq2 | hmem'
        · exact hru heq2.symm
        · exact ih h hmem'
      · rw [List.filter_cons, if_neg (by simp [hre])]
        exact ih h

theorem insertSplits_ok_uids_nodup (eid payerId : Nat)
    (pids : List (String × Nat)) :
    ∀ (sm : List (String × ℚ)) (db db' : DB),
      insertSplits eid payerId pids sm db = .ok db' →
      ((db.splits.filter (fun r => r.1 == eid)).map (fun r => r.2.1)).Nodup →
      ((db'.splits.filter (fun r => r.1 == eid)).map (fun r => r.2.1)).Nodup := by
  intro sm
  induction sm with
  | nil =>
    intro db db' h hnd
    simp only [insertSplits] at h
    obtain rfl : db = db' := by injection h
    exact hnd
  | cons ua rest ih =>
    obtain ⟨user, amt⟩ := ua
    intro db db' h hnd
    simp only [insertSplits] at h
    cases hdl : dlookup user pids with
    | none => simp [hdl] at h
    | some uid =>
      simp only [hdl] at h
      by_cases hhs : hasSplitRow eid uid db.splits
      · simp [if_pos hhs] at h
      · simp only [if_neg hhs] at h
        have hnd2 : (((db.splits ++ [(eid, uid, amt)]).filter
            (fun r => r.1 == eid)).map (fun r => r.2.1)).Nodup := by
          rw [List.filter_append, List.filter_cons]
          rw [if_pos (by simp), List.filter_nil, List.map_append, List.map_cons,
            List.map_nil]
          rw [List.nodup_append]
          refine ⟨hnd, List.nodup_singleton _, ?_⟩
          intro x hx hx1
          rcases List.mem_cons.1 hx1 with rfl | hx2
          · exact hasSplitRow_false_not_mem eid x db.splits
              (Bool.not_eq_true _ ▸ hhs) hx
          · exact absurd hx2 (List.not_mem_nil x)
        by_cases hup : uid ≠ payerId
        · rw [if_pos hup] at h
          exact ih _ _ h hnd2
        · rw [if_neg hup] at h
          exact ih _ _ h hnd2

/-- C7 amended: an exactly duplicated participant name does not make the
call fail — the dict comprehension collapses duplicates and on success
the new expense's split rows always carry pairwise-distinct user ids.
The split-table pair-uniqueness aborts the transaction (persisting
nothing) only when two distinct participant strings resolve to the same
user, as with names differing only in surrounding whitespace. -/
theorem duplicate_participants_collapse :
    (∀ (today : Date) (a : Args) (db db' : DB) (eid : Nat),
      (∀ r ∈ db.splits, r.1 ≠ db.nextExpenseId) →
      run_add_split_expense today a db = (db', .ok eid) →
      ((db'.splits.filter (fun r => r.1 == eid)).map
        (fun r => r.2.1)).Nodup) ∧
    run_add_split_expense d0 argsTrimBob st0 =
      (st0, .error .uniqueViolation) := by
  refine ⟨?_, by with_unfolding_all rfl⟩
  intro today a db db' eid hfresh hrun
  obtain ⟨dt, catId, sm, db3, hndate, hsm, hamt, heid, hsp3, hbal3, hins⟩ :=
    add_ok_elim today a db db' eid (run_ok_elim today a db db' eid hrun)
  refine insertSplits_ok_uids_nodup _ _ _ sm db3 db' hins ?_
  rw [hsp3, filter_eid_nil eid db.splits (fun r hr => heid ▸ hfresh r hr)]
  simp

/-- C7 witness: the duplicated-Bob call satisfies the hypotheses, and its
split rows carry distinct user ids. -/
theorem duplicate_participants_collapse_witness :
    run_add_split_expense d0 argsDupBob st0 =
      ((run_add_split_expense d0 argsDupBob st0).1, .ok 1) ∧
    (((run_add_split_expense d0 argsDupBob st0).1.splits.filter
        (fun r => r.1 == 1)).map (fun r => r.2.1)).Nodup := by
  refine ⟨by with_unfolding_all rfl, ?_⟩
  exact duplicate_participants_collapse.1 d0 argsDupBob st0 _ 1
    (fun r hr => absurd hr (by simp [st0])) (by with_unfolding_all rfl)

theorem computeSplitMap_percent_elim (amount : ℚ) (ps : List String)
    (l sm : List (String × ℚ))
    (h : computeSplitMap "percent" amount ps (some l) = .ok sm) :
    l ≠ [] ∧ sm = l.map (fun up => (up.1, round2 (amount * up.2 / 100))) := by
  by_cases hl : l = []
  · simp [computeSplitMap, hl] at h
  · simp [computeSplitMap, hl] at h
    exact ⟨hl, h.symm⟩

/-! ## C10: unequal/percent splits are keyed by the explicit shares -/

/-- C10: for the `unequal` policy the persisted split rows are keyed by
the keys of `splits`, not by `participant_names`: exactly one row per
`splits` entry, each resolved through `participant_ids`; a participant
missing from `splits` silently gets no row and no balance change (the
`argsNoCarol2` scenario: Carol is resolved but untouched, no error),
while a `splits` key that is not a participant aborts the whole
transaction with a `KeyError`-class failure and nothing persists. -/
theorem splits_keyed_by_explicit_shares :
    (∀ (today : Date) (a : Args) (db db' : DB) (eid : Nat)
        (l : List (String × ℚ)),
      a.splitType = "unequal" → a.splits = some l →
      (∀ r ∈ db.splits, r.1 ≠ db.nextExpenseId) →
      run_add_split_expense today a db = (db', .ok eid) →
      (db'.splits.filter (fun r => r.1 == eid)).length = l.length ∧
      (∀ r ∈ db'.splits, r.1 = eid →
        ∃ u ∈ l, dlookup u.1
            (resolveParticipants a.participants
              (get_user_id a.paidBy db).2).1 = some r.2.1 ∧
          r.2.2 = u.2)) ∧
    (∀ (today : Date) (a : Args) (db db' : DB) (eid : Nat)
        (l : List (String × ℚ)),
      a.splitType = "percent" → a.splits = some l →
      (∀ r ∈ db.splits, r.1 ≠ db.nextExpenseId) →
      run_add_split_expense today a db = (db', .ok eid) →
      (db'.splits.filter (fun r => r.1 == eid)).length = l.length ∧
      (∀ r ∈ db'.splits, r.1 = eid →
        ∃ v ∈ l, dlookup v.1
            (resolveParticipants a.participants
              (get_user_id a.paidBy db).2).1 = some r.2.1 ∧
          r.2.2 = round2 (a.amount * v.2 / 100))) ∧
    (∀ (today : Date) (a : Args) (db : DB) (sm : List (String × ℚ))
        (u : String × ℚ),
      computeSplitMap a.splitType a.amount a.participants a.splits = .ok sm →
      u ∈ sm →
      dlookup u.1 (resolveParticipants a.participants
        (get_user_id a.paidBy db).2).1 = none →
      (run_add_split_expense today a db).1 = db ∧
      ∃ e, (run_add_split_expense today a db).2 = .error e) ∧
    run_add_split_expense d0 argsZedKey st0 = (st0, .error .keyError) ∧
    ((run_add_split_expense d0 argsNoCarol2 st0).2 = .ok 1 ∧
      (run_add_split_expense d0 argsNoCarol2 st0).1.users =
        [(1, "Alice"), (2, "Bob"), (3, "Carol")] ∧
      (run_add_split_expense d0 argsNoCarol2 st0).1.splits = [(1, 2, 25)] ∧
      (run_add_split_expense d0 argsNoCarol2 st0).1.balances =
        [((2, 1), 25)]) := by
  refine ⟨?_, ?_, ?_, by with_unfolding_all rfl,
    by with_unfolding_all rfl, by with_unfolding_all rfl,
    by with_unfolding_all rfl, by with_unfolding_all rfl⟩
  · intro today a db db' eid l hpol hsplits hfresh hrun
    obtain ⟨dt, catId, sm, db3, hndate, hsm, hamt, heid, hsp3, hbal3, hins⟩ :=
      add_ok_elim today a db db' eid (run_ok_elim today a db db' eid hrun)
    rw [hpol, hsplits] at hsm
    obtain ⟨-, hsmeq⟩ :=
      computeSplitMap_unequal_elim a.amount a.participants l sm hsm
    obtain ⟨rs, hres, hsp, hbal, -, -, -, -, -⟩ :=
      insertSplits_ok_shape _ _ _ sm db3 db' hins
    obtain ⟨hamts, hlen, hmem⟩ := resolveRows_shape _ _ sm rs hres
    have hold : db3.splits.filter (fun r => r.1 == eid) = [] :=
      filter_eid_nil eid db3.splits
        (fun r hr => heid ▸ hfresh r (hsp3 ▸ hr))
    have hnew : rs.filter (fun r => r.1 == eid) = rs :=
      filter_eid_self eid rs (fun r hr => (hmem r hr).1)
    constructor
    · rw [hsp, List.filter_append, hold, hnew, List.nil_append, hlen, hsmeq]
    · intro r hr hre
      rw [hsp] at hr
      rcases List.mem_append.1 hr with hr3 | hrs
      · rw [hsp3] at hr3
        rw [heid] at hre
        exact absurd hre (hfresh r hr3)
      · obtain ⟨-, u, hu, h1, h2⟩ := hmem r hrs
        exact ⟨u, hsmeq ▸ hu, h1, h2⟩
  · intro today a db db' eid l hpol hsplits hfresh hrun
    obtain ⟨dt, catId, sm, db3, hndate, hsm, hamt, heid, hsp3, hbal3, hins⟩ :=
      add_ok_elim today a db db' eid (run_ok_elim today a db db' eid hrun)
    rw [hpol, hsplits] at hsm
    obtain ⟨-, hsmeq⟩ :=
      computeSplitMap_percent_elim a.amount a.participants l sm hsm
    obtain ⟨rs, hres, hsp, hbal, -, -, -, -, -⟩ :=
      insertSplits_ok_shape _ _ _ sm db3 db' hins
    obtain ⟨hamts, hlen, hmem⟩ := resolveRows_shape _ _ sm rs hres
    have hold : db3.splits.filter (fun r => r.1 == eid) = [] :=
      filter_eid_nil eid db3.splits
        (fun r hr => heid ▸ hfresh r (hsp3 ▸ hr))
    have hnew : rs.filter (fun r => r.1 == eid) = rs :=
      filter_eid_self eid rs (fun r hr => (hmem r hr).1)
    constructor
    · rw [hsp, List.filter_append, hold, hnew, List.nil_append, hlen, hsmeq,
        List.length_map]
    · intro r hr hre
      rw [hsp] at hr
      rcases List.mem_append.1 hr with hr3 | hrs
      · rw [hsp3] at hr3
        rw [heid] at hre
        exact absurd hre (hfresh r hr3)
      · obtain ⟨-, u, hu, h1, h2⟩ := hmem r hrs
        rw [hsmeq] at hu
        obtain ⟨v, hv, rfl⟩ := List.mem_map.1 hu
        exact ⟨v, hv, h1, h2⟩
  · intro today a db sm u hsm hu hnone
    cases hrr : (run_add_split_expense today a db).2 with
    | ok eid =>
      exfalso
      have hrun : run_add_split_expense today a db =
          ((run_add_split_expense today a db).1, .ok eid) := by
        rw [Prod.ext_iff]
        exact ⟨rfl, hrr⟩
      obtain ⟨dt, catId, sm', db3, hndate, hsm', hamt, heid, hsp3, hbal3, hins⟩ :=
        add_ok_elim today a db _ eid (run_ok_elim today a db _ eid hrun)
      obtain rfl : sm' = sm := by
        have h2 := hsm'.symm.trans hsm
        injection h2
      obtain ⟨rs, hres, -⟩ := insertSplits_ok_shape _ _ _ sm' db3 _ hins
      rw [resolveRows_none _ _ sm' u hu hnone] at hres
      exact absurd hres (by simp)
    | error e =>
      have hrun : run_add_split_expense today a db =
          ((run_add_split_expense today a db).1, .error e) := by
        rw [Prod.ext_iff]
        exact ⟨rfl, hrr⟩
      obtain ⟨h1, -⟩ := run_error_elim today a db _ e hrun
      exact ⟨h1, e, rfl⟩

/-- C10 witness: the `Zed` key is in the computed split map, is not a
resolved participant, and the call aborts with its state unchanged. -/
theorem splits_keyed_by_explicit_shares_witness :
    computeSplitMap argsZedKey.splitType argsZedKey.amount
      argsZedKey.participants argsZedKey.splits =
      .ok [("Alice", 10), ("Zed", 20)] ∧
    ("Zed", (20 : ℚ)) ∈ [("Alice", (10 : ℚ)), ("Zed", 20)] ∧
    dlookup "Zed" (resolveParticipants argsZedKey.participants
      (get_user_id argsZedKey.paidBy st0).2).1 = none ∧
    ((run_add_split_expense d0 argsZedKey st0).1 = st0 ∧
      ∃ e, (run_add_split_expense d0 argsZedKey st0).2 = .error e) := by
  refine ⟨by with_unfolding_all rfl, by decide, by with_unfolding_all rfl, ?_⟩
  exact splits_keyed_by_explicit_shares.2.2.1 d0 argsZedKey st0
    [("Alice", 10), ("Zed", 20)] ("Zed", 20)
    (by with_unfolding_all rfl) (by decide) (by with_unfolding_all rfl)

end AniTracker
